import Mathlib

/-
Verification development for the Sleipnir trajectory-optimization engine.

The repository excerpt contains the cart-pole OCP solver test
(src/test/src/control/OCPSolverTest_CartPole.cpp) and a vendored units
header; the core library (expression graph, autodiff engine, interior-point
solver, OCP transcription layer, memory pool) is referenced by the test and
described by the specification but its sources are not in the excerpt.
Those components are therefore modelled here from the specification's words,
each such definition marked with a doc comment starting
"Modelled from the spec:".
-/

namespace Sleipnir

/-- Modelled from the spec: structural classification of an expression,
one of None/Constant/Linear/Quadratic/Nonlinear (src/include is absent;
the spec lists these five values for the solve-status record). -/
inductive ExpressionType where
  | none
  | constant
  | linear
  | quadratic
  | nonlinear
deriving DecidableEq, Repr

/-- Numeric rank of a classification, ordering None < Constant < Linear <
Quadratic < Nonlinear ("most general" = largest rank). -/
def ExpressionType.rank : ExpressionType → Nat
  | .none => 0
  | .constant => 1
  | .linear => 2
  | .quadratic => 3
  | .nonlinear => 4

/-- The more general of two classifications. -/
def ExpressionType.sup (a b : ExpressionType) : ExpressionType :=
  if a.rank ≤ b.rank then b else a

/-- Modelled from the spec: classification of a product from its factors'
classifications (constant factors keep the other factor's degree, a product
of two linear factors is quadratic, anything higher is nonlinear). -/
def ExpressionType.mulKind (a b : ExpressionType) : ExpressionType :=
  match a, b with
  | .none, _ => .none
  | _, .none => .none
  | .constant, t => t
  | t, .constant => t
  | .linear, .linear => .quadratic
  | _, _ => .nonlinear

/-- Modelled from the spec: classification of a quotient (division by a
constant keeps the dividend's degree, anything else is nonlinear). -/
def ExpressionType.divKind (a b : ExpressionType) : ExpressionType :=
  match b with
  | .none => a
  | .constant => a
  | _ => .nonlinear

/-- Modelled from the spec: classification of a transcendental function
application (constant argument gives a constant, otherwise nonlinear). -/
def ExpressionType.unaryKind (a : ExpressionType) : ExpressionType :=
  match a with
  | .none => .constant
  | .constant => .constant
  | _ => .nonlinear

/-- Named transcendental functions appearing in expression graphs. -/
inductive UnaryFunc where
  | sinFn
  | cosFn
  | sqrtFn
deriving DecidableEq, Repr

/-- Modelled from the spec: an expression node of the autodiff graph —
a constant, a decision-variable leaf (identified by its column index), or
an arithmetic / transcendental operation on operand subexpressions.
Values are modelled over ℚ. -/
inductive Expr where
  | const (c : ℚ)
  | var (i : Nat)
  | add (a b : Expr)
  | sub (a b : Expr)
  | mul (a b : Expr)
  | div (a b : Expr)
  | unary (f : UnaryFunc) (a : Expr)
deriving DecidableEq, Repr

/-- Modelled from the spec: structural classification of an expression,
"determined structurally once at setup — the most general operator kind
appearing in its subgraph". -/
def Expr.exprType : Expr → ExpressionType
  | .const c => if c = 0 then .none else .constant
  | .var _ => .linear
  | .add a b => ExpressionType.sup a.exprType b.exprType
  | .sub a b => ExpressionType.sup a.exprType b.exprType
  | .mul a b => ExpressionType.mulKind a.exprType b.exprType
  | .div a b => ExpressionType.divKind a.exprType b.exprType
  | .unary _ a => ExpressionType.unaryKind a.exprType

/-- Forward evaluation of an expression at a valuation `v` of the decision
variables; the interpretation `uf` of the transcendental functions is a
parameter (the C++ code evaluates them in floating point). -/
def Expr.evalWith (uf : UnaryFunc → ℚ → ℚ) (v : Nat → ℚ) : Expr → ℚ
  | .const c => c
  | .var i => v i
  | .add a b => a.evalWith uf v + b.evalWith uf v
  | .sub a b => a.evalWith uf v - b.evalWith uf v
  | .mul a b => a.evalWith uf v * b.evalWith uf v
  | .div a b => a.evalWith uf v / b.evalWith uf v
  | .unary f a => uf f (a.evalWith uf v)

/-- The set of decision-variable indices appearing in an expression's
subgraph; this is the structural information from which the sparsity
pattern is computed at `Solve()` entry. -/
def Expr.vars : Expr → Finset Nat
  | .const _ => ∅
  | .var i => {i}
  | .add a b => a.vars ∪ b.vars
  | .sub a b => a.vars ∪ b.vars
  | .mul a b => a.vars ∪ b.vars
  | .div a b => a.vars ∪ b.vars
  | .unary _ a => a.vars

/-- Symbolic derivative of a transcendental function, as an expression in
the function's argument. -/
def UnaryFunc.symDeriv : UnaryFunc → Expr → Expr
  | .sinFn, a => .unary .cosFn a
  | .cosFn, a => .sub (.const 0) (.unary .sinFn a)
  | .sqrtFn, a => .div (.const 1) (.mul (.const 2) (.unary .sqrtFn a))

/-- Modelled from the spec: reverse-mode differentiation produces the
partial derivative of an expression with respect to decision variable `j`;
represented here as the symbolic derivative expression obtained from the
standard local derivative rules of each operation kind. -/
def Expr.symDeriv : Expr → Nat → Expr
  | .const _, _ => .const 0
  | .var i, j => if i = j then .const 1 else .const 0
  | .add a b, j => .add (a.symDeriv j) (b.symDeriv j)
  | .sub a b, j => .sub (a.symDeriv j) (b.symDeriv j)
  | .mul a b, j => .add (.mul (a.symDeriv j) b) (.mul a (b.symDeriv j))
  | .div a b, j =>
      .div (.sub (.mul (a.symDeriv j) b) (.mul a (b.symDeriv j))) (.mul b b)
  | .unary f a, j => .mul (f.symDeriv a) (a.symDeriv j)

/-- Modelled from the spec: the memory pool collaborator's state — the pool
hands out blocks identified by stable ids and tracks the outstanding
(allocated, not yet deallocated) blocks for the exact live-count query. -/
structure PoolResource where
  nextId : Nat
  live : List Nat
deriving DecidableEq, Repr

/-- The pool with no outstanding blocks. -/
def emptyPool : PoolResource := { nextId := 0, live := [] }

/-- Modelled from the spec: operation allocate(size) -> block; returns the
new block id and the updated pool. -/
def PoolResource.allocate (p : PoolResource) : Nat × PoolResource :=
  (p.nextId, { nextId := p.nextId + 1, live := p.nextId :: p.live })

/-- Modelled from the spec: operation deallocate(block). -/
def PoolResource.deallocate (p : PoolResource) (b : Nat) : PoolResource :=
  { p with live := p.live.erase b }

/-- Modelled from the spec: operation blocks_in_use() -> count, the exact
live-count query used as a leak-detection oracle in tests. -/
def PoolResource.blocks_in_use (p : PoolResource) : Nat := p.live.length

/-- A pool operation performed by expression-node construction or
destruction. -/
inductive PoolOp where
  | alloc
  | dealloc (b : Nat)
deriving DecidableEq, Repr

/-- Run a trace of pool operations from a starting pool state. -/
def runPool : PoolResource → List PoolOp → PoolResource
  | p, [] => p
  | p, .alloc :: t => runPool p.allocate.2 t
  | p, .dealloc b :: t => runPool (p.deallocate b) t

/-- A trace is valid from a pool state when every deallocation frees a block
that is outstanding at that point (reference counting over pool-allocated
storage never frees a block twice or frees a foreign block). -/
def validFrom : PoolResource → List PoolOp → Bool
  | _, [] => true
  | p, .alloc :: t => validFrom p.allocate.2 t
  | p, .dealloc b :: t => p.live.contains b && validFrom (p.deallocate b) t

/-- Number of allocations in a trace. -/
def allocCount : List PoolOp → Nat
  | [] => 0
  | .alloc :: t => allocCount t + 1
  | .dealloc _ :: t => allocCount t

/-- Number of deallocations in a trace. -/
def deallocCount : List PoolOp → Nat
  | [] => 0
  | .alloc :: t => deallocCount t
  | .dealloc _ :: t => deallocCount t + 1

/-- Modelled from the spec: the enumerated terminal exit conditions of one
Solve() call. -/
inductive SolverExitCondition where
  | success
  | solvedToAcceptableTolerance
  | callbackRequestedStop
  | tooFewDOFs
  | locallyInfeasible
  | feasibilityRestorationFailed
  | divergingIterates
  | maxIterationsExceeded
  | maxWallClockTimeExceeded
deriving DecidableEq, Repr

/-- Modelled from the spec: the solve configuration surface (diagnostics
flag, iteration budget, convergence tolerance). -/
structure SolverConfig where
  diagnostics : Bool := false
  maxIterations : Nat := 5000
  tolerance : ℚ := 1 / 100000000

/-- Modelled from the spec: the nonlinear program frozen at Solve() entry —
a scalar cost expression, the ordered equality constraints (canonical form
expression == 0) and the ordered inequality constraints (canonical form
expression >= 0). -/
structure NLP where
  cost : Expr
  eqConstraints : List Expr
  ineqConstraints : List Expr

/-- The most general classification present among a group of expressions
(None for an empty group). -/
def maxTypeList (l : List Expr) : ExpressionType :=
  l.foldl (fun acc e => ExpressionType.sup acc e.exprType) ExpressionType.none

/-- Modelled from the spec: the solve-status record — the enumerated exit
condition plus the structural classifications of the cost, the
equality-constraint set and the inequality-constraint set. -/
structure SolverStatus where
  costFunctionType : ExpressionType
  equalityConstraintType : ExpressionType
  inequalityConstraintType : ExpressionType
  exitCondition : SolverExitCondition
deriving DecidableEq, Repr

/-- Result of one Solve() call: the status record, the final iterate written
back into the graph (read back by the caller), and the per-iteration
diagnostics stream (objective values), empty when diagnostics is off. -/
structure SolveResult where
  status : SolverStatus
  iterate : Nat → ℚ
  diagLog : List ℚ

/-- Equality constraints are satisfied within tolerance at a valuation. -/
def eqFeasible (uf : UnaryFunc → ℚ → ℚ) (tol : ℚ) (p : NLP) (v : Nat → ℚ) :
    Bool :=
  p.eqConstraints.all fun c => decide (|c.evalWith uf v| ≤ tol)

/-- Inequality constraints (canonical form expression >= 0) hold at a
valuation. -/
def ineqFeasible (uf : UnaryFunc → ℚ → ℚ) (p : NLP) (v : Nat → ℚ) : Bool :=
  p.ineqConstraints.all fun c => decide (0 ≤ c.evalWith uf v)

/-- Modelled from the spec: the convergence check of the interior-point
iteration — the iterate is accepted as Success when the constraint residuals
are within tolerance and the inequality iterate is feasible. -/
def converged (uf : UnaryFunc → ℚ → ℚ) (tol : ℚ) (p : NLP) (v : Nat → ℚ) :
    Bool :=
  eqFeasible uf tol p v && ineqFeasible uf p v

/-- Modelled from the spec: the interior-point iteration loop as a
state machine with an iteration budget (fuel). The Newton step `step` and
the non-finite-iterate detector `bad` are numeric parameters; each
iteration checks for diverging iterates, then convergence, then takes one
step, appending the objective to the diagnostics stream only when the
diagnostics flag is set. Exhausting the budget exits
maxIterationsExceeded; every numerical failure is surfaced as an exit
condition together with the current iterate, never by aborting. -/
def solveLoop (uf : UnaryFunc → ℚ → ℚ) (step : (Nat → ℚ) → Nat → ℚ)
    (bad : (Nat → ℚ) → Bool) (p : NLP) (tol : ℚ) (diag : Bool) :
    Nat → (Nat → ℚ) → List ℚ → SolverExitCondition × (Nat → ℚ) × List ℚ
  | 0, x, log => (.maxIterationsExceeded, x, log)
  | fuel + 1, x, log =>
      if bad x then (.divergingIterates, x, log)
      else if converged uf tol p x then (.success, x, log)
      else
        solveLoop uf step bad p tol diag fuel (step x)
          (if diag then log ++ [p.cost.evalWith uf x] else log)

/-- Modelled from the spec: Solve() — runs the iteration loop from the
initial guess and returns the solve-status record (exit condition plus the
structural classifications computed once at setup), the final iterate, and
the diagnostics stream. -/
def NLP.solve (uf : UnaryFunc → ℚ → ℚ) (step : (Nat → ℚ) → Nat → ℚ)
    (bad : (Nat → ℚ) → Bool) (p : NLP) (cfg : SolverConfig) (x0 : Nat → ℚ) :
    SolveResult :=
  let r := solveLoop uf step bad p cfg.tolerance cfg.diagnostics
    cfg.maxIterations x0 []
  { status :=
      { costFunctionType := p.cost.exprType
        equalityConstraintType := maxTypeList p.eqConstraints
        inequalityConstraintType := maxTypeList p.ineqConstraints
        exitCondition := r.1 }
    iterate := r.2.1
    diagLog := r.2.2 }

/-- Modelled from the spec: decision-variable column index of state entry
(row i, stage k) in the layout built by the OCP transcription layer —
states occupy the first n·(N+1) columns, stage-major. -/
def stateVarIdx (n N i k : Nat) : Nat := n * k + i

/-- Modelled from the spec: decision-variable column index of input entry
(row i, stage k) — inputs occupy the m·N columns after the states. -/
def inputVarIdx (n m N i k : Nat) : Nat := n * (N + 1) + (m * k + i)

/-- Modelled from the spec: the state trajectory matrix constructed by the
OCP transcription layer — state-dim × (N+1) decision variables. -/
def ocpX (n m N : Nat) (i : Fin n) (k : Fin (N + 1)) : Expr :=
  Expr.var (stateVarIdx n N i.1 k.1)

/-- Modelled from the spec: the input trajectory matrix constructed by the
OCP transcription layer — input-dim × N decision variables (no input
decision variable at stage N). -/
def ocpU (n m N : Nat) (i : Fin m) (k : Fin N) : Expr :=
  Expr.var (inputVarIdx n m N i.1 k.1)

/-- The set of decision-variable indices backing the state trajectory. -/
def stateVarIndices (n N : Nat) : Finset Nat :=
  (Finset.univ : Finset (Fin n × Fin (N + 1))).image fun p =>
    stateVarIdx n N p.1.1 p.2.1

/-- The set of decision-variable indices backing the input trajectory. -/
def inputVarIndices (n m N : Nat) : Finset Nat :=
  (Finset.univ : Finset (Fin m × Fin N)).image fun p =>
    inputVarIdx n m N p.1.1 p.2.1

/-- Modelled from the spec: ConstrainInitialState(x0) — pin the first stage
of the state trajectory to the numeric vector x0 via equality
constraints x(i, 0) - x0(i) == 0. -/
def constrainInitialState (n N : Nat) (x0 : Nat → ℚ) : List Expr :=
  (List.range n).map fun i =>
    Expr.sub (Expr.var (stateVarIdx n N i 0)) (Expr.const (x0 i))

/-- Modelled from the spec: ConstrainFinalState(xf) — pin the last stage
(stage N) of the state trajectory to the numeric vector xf via equality
constraints x(i, N) - xf(i) == 0. -/
def constrainFinalState (n N : Nat) (xf : Nat → ℚ) : List Expr :=
  (List.range n).map fun i =>
    Expr.sub (Expr.var (stateVarIdx n N i N)) (Expr.const (xf i))

/-- Modelled from the spec: SetLowerInputBound(lower) — uniform lower bound
broadcast across every input row and every stage, as inequality
constraints u(i, k) - lower >= 0. -/
def setLowerInputBound (n m N : Nat) (lower : ℚ) : List Expr :=
  (List.range N).flatMap fun k =>
    (List.range m).map fun i =>
      Expr.sub (Expr.var (inputVarIdx n m N i k)) (Expr.const lower)

/-- Modelled from the spec: SetUpperInputBound(upper) — uniform upper bound
broadcast across every input row and every stage, as inequality
constraints upper - u(i, k) >= 0. -/
def setUpperInputBound (n m N : Nat) (upper : ℚ) : List Expr :=
  (List.range N).flatMap fun k =>
    (List.range m).map fun i =>
      Expr.sub (Expr.const upper) (Expr.var (inputVarIdx n m N i k))

/-- The sum-of-squared-inputs contribution of stage k, the inner product
(U column k)ᵀ · (U column k) built by the test's cost loop. -/
def columnSquaredInput (n m N k : Nat) : Expr :=
  (List.range m).foldl
    (fun acc i =>
      Expr.add acc
        (Expr.mul (Expr.var (inputVarIdx n m N i k))
          (Expr.var (inputVarIdx n m N i k))))
    (Expr.const 0)

/-- The sum-of-squared-inputs cost J = Σ_k (U column k)ᵀ · (U column k)
built by the test. -/
def sumSquaredInputs (n m N : Nat) : Expr :=
  (List.range N).foldl
    (fun acc k => Expr.add acc (columnSquaredInput n m N k)) (Expr.const 0)

/-- State entry (row i, stage k) of the cart-pole problem
(n = 4, state [q, θ, q̇, θ̇]). -/
def cartPoleStateVar (N i k : Nat) : Expr := Expr.var (stateVarIdx 4 N i k)

/-- Input entry (cart force) at stage k of the cart-pole problem (m = 1). -/
def cartPoleInputVar (N k : Nat) : Expr := Expr.var (inputVarIdx 4 1 N 0 k)

/-- The shared timestep decision variable of the variable-single-timestep
policy, laid out after the state and input trajectories. -/
def dtVar (N : Nat) : Expr := Expr.var (4 * (N + 1) + 1 * N)

/-- Modelled from the spec: the cart acceleration row of the test's
cart-pole dynamics (CartPoleUtil.hpp is not in the excerpt) — the standard
cart-pole model
q̈ = (u + m_p sin θ (l θ̇² + g cos θ)) / (m_c + m_p sin²θ)
with cart mass 5, pole mass 1/2, pole length 1/2, gravity 981/100. -/
def cartPoleQdd (N k : Nat) : Expr :=
  Expr.div
    (Expr.add (cartPoleInputVar N k)
      (Expr.mul
        (Expr.mul (Expr.const (1 / 2))
          (Expr.unary .sinFn (cartPoleStateVar N 1 k)))
        (Expr.add
          (Expr.mul (Expr.const (1 / 2))
            (Expr.mul (cartPoleStateVar N 3 k) (cartPoleStateVar N 3 k)))
          (Expr.mul (Expr.const (981 / 100))
            (Expr.unary .cosFn (cartPoleStateVar N 1 k))))))
    (Expr.add (Expr.const 5)
      (Expr.mul (Expr.const (1 / 2))
        (Expr.mul (Expr.unary .sinFn (cartPoleStateVar N 1 k))
          (Expr.unary .sinFn (cartPoleStateVar N 1 k)))))

/-- Modelled from the spec: the stage-k direct-collocation equality
constraint of the cart-pole OCP for the cart-velocity row — it ties
x(2, k+1) to x(2, k), the inputs and the timestep decision variable through
the nonlinear acceleration dynamics:
x(2, k+1) - x(2, k) - (dt/2)(q̈_k + q̈_{k+1}) == 0. -/
def cartPoleCollocationConstraint (N k : Nat) : Expr :=
  Expr.sub
    (Expr.sub (cartPoleStateVar N 2 (k + 1)) (cartPoleStateVar N 2 k))
    (Expr.mul (Expr.mul (dtVar N) (Expr.const (1 / 2)))
      (Expr.add (cartPoleQdd N k) (cartPoleQdd N (k + 1))))

/-- Numeric Jacobian entry (row i, column j) of a constraint set at
iterate v: the derivative of constraint i with respect to decision
variable j, recomputed at every iteration from the fixed graph. -/
def jacEntry (uf : UnaryFunc → ℚ → ℚ) (v : Nat → ℚ) (cs : List Expr)
    (i j : Nat) : ℚ :=
  ((cs.getD i (Expr.const 0)).symDeriv j).evalWith uf v

/-- Numeric Hessian entry (j, k) of the Lagrangian at iterate v. -/
def hessEntry (uf : UnaryFunc → ℚ → ℚ) (v : Nat → ℚ) (lagrangian : Expr)
    (j k : Nat) : ℚ :=
  ((lagrangian.symDeriv j).symDeriv k).evalWith uf v

/-- Structural Jacobian sparsity pattern, computed once from the graph
structure at Solve() entry (it takes no iterate): position (i, j) is
structurally nonzero when decision variable j appears in the subgraph of
constraint i. -/
def jacSparsity (cs : List Expr) (i j : Nat) : Prop :=
  j ∈ (cs.getD i (Expr.const 0)).vars

/-- Structural Hessian sparsity pattern, computed once from the graph
structure at Solve() entry: position (j, k) is structurally nonzero when
both decision variables appear in the Lagrangian's subgraph. -/
def hessSparsity (lagrangian : Expr) (j k : Nat) : Prop :=
  j ∈ lagrangian.vars ∧ k ∈ lagrangian.vars

/-- Identity interpretation of the transcendental functions, used to
instantiate solver statements at concrete inputs. -/
def idUnaryInterp : UnaryFunc → ℚ → ℚ := fun _ q => q

/-- The identity Newton step, used to instantiate solver statements at
concrete inputs. -/
def idStep : (Nat → ℚ) → Nat → ℚ := fun x => x

/-- A non-finite-iterate detector that never fires, used to instantiate
solver statements at concrete inputs. -/
def neverDiverges : (Nat → ℚ) → Bool := fun _ => false

/-- A concrete 1-state, 1-input, 1-stage NLP with pinned boundary states
and unit input bounds, solved exactly by the zero iterate. -/
def pinnedBoxNLP : NLP :=
  ⟨Expr.const 0,
   constrainInitialState 1 1 (fun _ => 0) ++
     constrainFinalState 1 1 (fun _ => 0),
   setLowerInputBound 1 1 1 (-1) ++ setUpperInputBound 1 1 1 1⟩

/-- A small concrete solver configuration. -/
def smallConfig : SolverConfig := ⟨false, 3, 0⟩

/-- The all-zero initial guess. -/
def zeroGuess : Nat → ℚ := fun _ => 0

section Theorems

theorem ExpressionType.rank_le_sup_left (a b : ExpressionType) :
    a.rank ≤ (a.sup b).rank := by
  unfold ExpressionType.sup
  split <;> omega

theorem ExpressionType.rank_le_sup_right (a b : ExpressionType) :
    b.rank ≤ (a.sup b).rank := by
  unfold ExpressionType.sup
  split <;> omega

theorem ExpressionType.sup_eq_or (a b : ExpressionType) :
    a.sup b = a ∨ a.sup b = b := by
  unfold ExpressionType.sup
  split
  · exact Or.inr rfl
  · exact Or.inl rfl

theorem foldl_supType_init_le (l : List Expr) (acc : ExpressionType) :
    acc.rank ≤ (l.foldl (fun a e => a.sup e.exprType) acc).rank := by
  induction l generalizing acc with
  | nil => exact le_rfl
  | cons e t ih =>
      exact le_trans (ExpressionType.rank_le_sup_left acc e.exprType) (ih _)

theorem foldl_supType_mem_le (l : List Expr) :
    ∀ (acc : ExpressionType) (e : Expr), e ∈ l →
      e.exprType.rank ≤ (l.foldl (fun a x => a.sup x.exprType) acc).rank := by
  induction l with
  | nil => intro acc e he; cases he
  | cons x t ih =>
      intro acc e he
      rcases List.mem_cons.mp he with h | h
      · subst h
        exact le_trans (ExpressionType.rank_le_sup_right acc e.exprType)
          (foldl_supType_init_le t _)
      · exact ih _ e h

theorem foldl_supType_attained (l : List Expr) :
    ∀ acc : ExpressionType,
      l.foldl (fun a x => a.sup x.exprType) acc = acc ∨
        ∃ e ∈ l, l.foldl (fun a x => a.sup x.exprType) acc = e.exprType := by
  induction l with
  | nil => intro acc; exact Or.inl rfl
  | cons x t ih =>
      intro acc
      rw [List.foldl_cons]
      rcases ih (acc.sup x.exprType) with h | ⟨e, he, h⟩
      · rcases ExpressionType.sup_eq_or acc x.exprType with h2 | h2
        · exact Or.inl (by rw [h, h2])
        · exact Or.inr ⟨x, List.mem_cons_self x t, by rw [h, h2]⟩
      · exact Or.inr ⟨e, List.mem_cons_of_mem x he, h⟩

theorem maxTypeList_mem_le (l : List Expr) (e : Expr) (he : e ∈ l) :
    e.exprType.rank ≤ (maxTypeList l).rank :=
  foldl_supType_mem_le l _ e he

theorem maxTypeList_attained (l : List Expr) :
    maxTypeList l = .none ∨ ∃ e ∈ l, maxTypeList l = e.exprType :=
  foldl_supType_attained l _

theorem maxTypeList_eq_linear (l : List Expr) (hne : l ≠ [])
    (hall : ∀ e ∈ l, e.exprType = .linear) : maxTypeList l = .linear := by
  rcases maxTypeList_attained l with h | ⟨e, he, h⟩
  · obtain ⟨e, he⟩ := List.exists_mem_of_ne_nil l hne
    have h1 := maxTypeList_mem_le l e he
    rw [hall e he, h] at h1
    simp [ExpressionType.rank] at h1
  · rw [h, hall e he]

theorem maxTypeList_eq_nonlinear (l : List Expr) (e : Expr) (he : e ∈ l)
    (h : e.exprType = .nonlinear) : maxTypeList l = .nonlinear := by
  have h1 := maxTypeList_mem_le l e he
  rw [h] at h1
  cases hM : maxTypeList l <;> rw [hM] at h1 <;>
    simp [ExpressionType.rank] at h1 ⊢

theorem foldl_add_terms_quadratic (h : Nat → Expr) :
    ∀ (l : List Nat) (acc : Expr), (∀ i ∈ l, (h i).exprType = .quadratic) →
      acc.exprType = .quadratic →
      (l.foldl (fun a i => Expr.add a (h i)) acc).exprType = .quadratic := by
  intro l
  induction l with
  | nil => intro acc _ hacc; exact hacc
  | cons x t ih =>
      intro acc hterm hacc
      rw [List.foldl_cons]
      refine ih _ (fun i hi => hterm i (List.mem_cons_of_mem x hi)) ?_
      have hx := hterm x (List.mem_cons_self x t)
      simp [Expr.exprType, hacc, hx, ExpressionType.sup, ExpressionType.rank]

theorem foldl_add_terms_quadratic_start (h : Nat → Expr) (l : List Nat)
    (hterm : ∀ i ∈ l, (h i).exprType = .quadratic) (hne : l ≠ []) :
    (l.foldl (fun a i => Expr.add a (h i)) (Expr.const 0)).exprType =
      .quadratic := by
  cases l with
  | nil => exact absurd rfl hne
  | cons x t =>
      rw [List.foldl_cons]
      refine foldl_add_terms_quadratic h t _
        (fun i hi => hterm i (List.mem_cons_of_mem x hi)) ?_
      have hx := hterm x (List.mem_cons_self x t)
      simp [Expr.exprType, hx, ExpressionType.sup, ExpressionType.rank]

theorem columnSquaredInput_type (n m N k : Nat) (hm : 1 ≤ m) :
    (columnSquaredInput n m N k).exprType = .quadratic := by
  refine foldl_add_terms_quadratic_start
    (fun i => Expr.mul (Expr.var (inputVarIdx n m N i k))
      (Expr.var (inputVarIdx n m N i k)))
    (List.range m) (fun i _ => rfl) ?_
  simp [List.range_eq_nil]
  omega

theorem sumSquaredInputs_type (n m N : Nat) (hm : 1 ≤ m) (hN : 1 ≤ N) :
    (sumSquaredInputs n m N).exprType = .quadratic := by
  refine foldl_add_terms_quadratic_start
    (fun k => columnSquaredInput n m N k) (List.range N)
    (fun k _ => columnSquaredInput_type n m N k hm) ?_
  simp [List.range_eq_nil]
  omega

theorem lowerBoundExpr_type (j : Nat) (c : ℚ) :
    (Expr.sub (Expr.var j) (Expr.const c)).exprType = .linear := by
  by_cases hc : c = 0 <;>
    simp [Expr.exprType, hc, ExpressionType.sup, ExpressionType.rank]

theorem upperBoundExpr_type (j : Nat) (c : ℚ) :
    (Expr.sub (Expr.const c) (Expr.var j)).exprType = .linear := by
  by_cases hc : c = 0 <;>
    simp [Expr.exprType, hc, ExpressionType.sup, ExpressionType.rank]

theorem setLowerInputBound_all_linear (n m N : Nat) (lower : ℚ) :
    ∀ c ∈ setLowerInputBound n m N lower, c.exprType = .linear := by
  intro c hc
  simp only [setLowerInputBound, List.mem_flatMap, List.mem_map,
    List.mem_range] at hc
  obtain ⟨k, _, i, _, rfl⟩ := hc
  exact lowerBoundExpr_type _ _

theorem setUpperInputBound_all_linear (n m N : Nat) (upper : ℚ) :
    ∀ c ∈ setUpperInputBound n m N upper, c.exprType = .linear := by
  intro c hc
  simp only [setUpperInputBound, List.mem_flatMap, List.mem_map,
    List.mem_range] at hc
  obtain ⟨k, _, i, _, rfl⟩ := hc
  exact upperBoundExpr_type _ _

theorem mem_setLowerInputBound (n m N : Nat) (lower : ℚ) (i k : Nat)
    (hi : i < m) (hk : k < N) :
    Expr.sub (Expr.var (inputVarIdx n m N i k)) (Expr.const lower) ∈
      setLowerInputBound n m N lower := by
  simp only [setLowerInputBound, List.mem_flatMap, List.mem_map,
    List.mem_range]
  exact ⟨k, hk, i, hi, rfl⟩

theorem mem_setUpperInputBound (n m N : Nat) (upper : ℚ) (i k : Nat)
    (hi : i < m) (hk : k < N) :
    Expr.sub (Expr.const upper) (Expr.var (inputVarIdx n m N i k)) ∈
      setUpperInputBound n m N upper := by
  simp only [setUpperInputBound, List.mem_flatMap, List.mem_map,
    List.mem_range]
  exact ⟨k, hk, i, hi, rfl⟩

theorem mem_constrainInitialState (n N : Nat) (x0 : Nat → ℚ) (i : Nat)
    (hi : i < n) :
    Expr.sub (Expr.var (stateVarIdx n N i 0)) (Expr.const (x0 i)) ∈
      constrainInitialState n N x0 := by
  simp only [constrainInitialState, List.mem_map, List.mem_range]
  exact ⟨i, hi, rfl⟩

theorem mem_constrainFinalState (n N : Nat) (xf : Nat → ℚ) (i : Nat)
    (hi : i < n) :
    Expr.sub (Expr.var (stateVarIdx n N i N)) (Expr.const (xf i)) ∈
      constrainFinalState n N xf := by
  simp only [constrainFinalState, List.mem_map, List.mem_range]
  exact ⟨i, hi, rfl⟩

theorem inputBounds_group_linear (n m N : Nat) (lower upper : ℚ)
    (hm : 1 ≤ m) (hN : 1 ≤ N) :
    maxTypeList (setLowerInputBound n m N lower ++
      setUpperInputBound n m N upper) = .linear := by
  refine maxTypeList_eq_linear _ ?_ ?_
  · have h := mem_setLowerInputBound n m N lower 0 0 hm hN
    exact List.ne_nil_of_mem (List.mem_append_left _ h)
  · intro c hc
    rcases List.mem_append.mp hc with h | h
    · exact setLowerInputBound_all_linear n m N lower c h
    · exact setUpperInputBound_all_linear n m N upper c h

theorem deallocate_blocks_in_use (p : PoolResource) (b : Nat)
    (hb : p.live.contains b = true) :
    (p.deallocate b).blocks_in_use + 1 = p.blocks_in_use := by
  have hm : b ∈ p.live := by simpa using hb
  have h1 := List.length_erase_of_mem hm
  have h2 : 0 < p.live.length := List.length_pos.mpr (List.ne_nil_of_mem hm)
  simp only [PoolResource.deallocate, PoolResource.blocks_in_use]
  omega

theorem runPool_blocks_in_use : ∀ (t : List PoolOp) (p : PoolResource),
    validFrom p t = true →
    (runPool p t).blocks_in_use + deallocCount t =
      p.blocks_in_use + allocCount t := by
  intro t
  induction t with
  | nil => intro p _; simp [runPool, deallocCount, allocCount]
  | cons op t ih =>
      intro p hv
      cases op with
      | alloc =>
          have hv2 : validFrom p.allocate.2 t = true := by
            simpa [validFrom] using hv
          have h := ih _ hv2
          have h2 : (p.allocate.2).blocks_in_use = p.blocks_in_use + 1 := by
            simp [PoolResource.allocate, PoolResource.blocks_in_use]
          simp only [runPool, deallocCount, allocCount]
          omega
      | dealloc b =>
          rw [validFrom, Bool.and_eq_true] at hv
          have h := ih _ hv.2
          have h2 := deallocate_blocks_in_use p b hv.1
          simp only [runPool, deallocCount, allocCount]
          omega

theorem solveLoop_spec (uf : UnaryFunc → ℚ → ℚ)
    (step : (Nat → ℚ) → Nat → ℚ) (bad : (Nat → ℚ) → Bool) (p : NLP)
    (tol : ℚ) (d : Bool) :
    ∀ (fuel : Nat) (x : Nat → ℚ) (log : List ℚ),
      ∃ k ≤ fuel,
        (solveLoop uf step bad p tol d fuel x log).2.1 = step^[k] x ∧
        ((solveLoop uf step bad p tol d fuel x log).1 = .success →
          converged uf tol p
            ((solveLoop uf step bad p tol d fuel x log).2.1) = true) := by
  intro fuel
  induction fuel with
  | zero =>
      intro x log
      refine ⟨0, le_rfl, rfl, ?_⟩
      intro h
      simp [solveLoop] at h
  | succ fuel ih =>
      intro x log
      by_cases hbad : bad x = true
      · refine ⟨0, Nat.zero_le _, ?_, ?_⟩
        · simp [solveLoop, hbad]
        · intro h
          simp [solveLoop, hbad] at h
      · by_cases hconv : converged uf tol p x = true
        · refine ⟨0, Nat.zero_le _, ?_, ?_⟩
          · simp [solveLoop, hbad, hconv]
          · intro _
            simp [solveLoop, hbad, hconv]
        · obtain ⟨k, hk, h1, h2⟩ :=
            ih (step x) (if d then log ++ [p.cost.evalWith uf x] else log)
          refine ⟨k + 1, Nat.succ_le_succ hk, ?_, ?_⟩
          · simp only [solveLoop, hbad, hconv, if_false, Bool.false_eq_true,
              ite_false]
            rw [Function.iterate_succ_apply]
            exact h1
          · simp only [solveLoop, hbad, hconv, if_false, Bool.false_eq_true,
              ite_false]
            exact h2

theorem solveLoop_diag_indep (uf : UnaryFunc → ℚ → ℚ)
    (step : (Nat → ℚ) → Nat → ℚ) (bad : (Nat → ℚ) → Bool) (p : NLP)
    (tol : ℚ) :
    ∀ (fuel : Nat) (x : Nat → ℚ) (log1 log2 : List ℚ) (d1 d2 : Bool),
      (solveLoop uf step bad p tol d1 fuel x log1).1 =
        (solveLoop uf step bad p tol d2 fuel x log2).1 ∧
      (solveLoop uf step bad p tol d1 fuel x log1).2.1 =
        (solveLoop uf step bad p tol d2 fuel x log2).2.1 := by
  intro fuel
  induction fuel with
  | zero => intro x log1 log2 d1 d2; exact ⟨rfl, rfl⟩
  | succ fuel ih =>
      intro x log1 log2 d1 d2
      by_cases hbad : bad x = true
      · simp [solveLoop, hbad]
      · by_cases hconv : converged uf tol p x = true
        · simp [solveLoop, hbad, hconv]
        · simp only [solveLoop, hbad, hconv, if_false, Bool.false_eq_true,
            ite_false]
          exact ih (step x) _ _ d1 d2

theorem solve_success_eq_residuals (uf : UnaryFunc → ℚ → ℚ)
    (step : (Nat → ℚ) → Nat → ℚ) (bad : (Nat → ℚ) → Bool) (p : NLP)
    (cfg : SolverConfig) (v0 : Nat → ℚ)
    (hs : (NLP.solve uf step bad p cfg v0).status.exitCondition = .success) :
    ∀ c ∈ p.eqConstraints,
      |c.evalWith uf ((NLP.solve uf step bad p cfg v0).iterate)| ≤
        cfg.tolerance := by
  obtain ⟨k, hk, h1, h2⟩ := solveLoop_spec uf step bad p cfg.tolerance
    cfg.diagnostics cfg.maxIterations v0 []
  have hc := h2 hs
  rw [converged, Bool.and_eq_true] at hc
  have he := hc.1
  rw [eqFeasible, List.all_eq_true] at he
  intro c hcm
  have := he c hcm
  simpa using this

theorem solve_success_ineq_feasible (uf : UnaryFunc → ℚ → ℚ)
    (step : (Nat → ℚ) → Nat → ℚ) (bad : (Nat → ℚ) → Bool) (p : NLP)
    (cfg : SolverConfig) (v0 : Nat → ℚ)
    (hs : (NLP.solve uf step bad p cfg v0).status.exitCondition = .success) :
    ∀ c ∈ p.ineqConstraints,
      0 ≤ c.evalWith uf ((NLP.solve uf step bad p cfg v0).iterate) := by
  obtain ⟨k, hk, h1, h2⟩ := solveLoop_spec uf step bad p cfg.tolerance
    cfg.diagnostics cfg.maxIterations v0 []
  have hc := h2 hs
  rw [converged, Bool.and_eq_true] at hc
  have he := hc.2
  rw [ineqFeasible, List.all_eq_true] at he
  intro c hcm
  have := he c hcm
  simpa using this

theorem vars_unary_symDeriv (f : UnaryFunc) (a : Expr) :
    (f.symDeriv a).vars = a.vars := by
  cases f <;> simp [UnaryFunc.symDeriv, Expr.vars]

theorem vars_symDeriv_subset : ∀ (e : Expr) (j : Nat),
    (e.symDeriv j).vars ⊆ e.vars := by
  intro e
  induction e with
  | const c => intro j; simp [Expr.symDeriv, Expr.vars]
  | var i =>
      intro j
      by_cases h : i = j <;> simp [Expr.symDeriv, h, Expr.vars]
  | add a b iha ihb =>
      intro j
      simp only [Expr.symDeriv, Expr.vars]
      exact Finset.union_subset_union (iha j) (ihb j)
  | sub a b iha ihb =>
      intro j
      simp only [Expr.symDeriv, Expr.vars]
      exact Finset.union_subset_union (iha j) (ihb j)
  | mul a b iha ihb =>
      intro j x hx
      simp only [Expr.symDeriv, Expr.vars, Finset.mem_union] at hx ⊢
      rcases hx with (hx | hx) | (hx | hx)
      · exact Or.inl (iha j hx)
      · exact Or.inr hx
      · exact Or.inl hx
      · exact Or.inr (ihb j hx)
  | div a b iha ihb =>
      intro j x hx
      simp only [Expr.symDeriv, Expr.vars, Finset.mem_union] at hx ⊢
      rcases hx with ((hx | hx) | (hx | hx)) | (hx | hx)
      · exact Or.inl (iha j hx)
      · exact Or.inr hx
      · exact Or.inl hx
      · exact Or.inr (ihb j hx)
      · exact Or.inr hx
      · exact Or.inr hx
  | unary f a ih =>
      intro j x hx
      simp only [Expr.symDeriv, Expr.vars, vars_unary_symDeriv,
        Finset.mem_union] at hx ⊢
      rcases hx with hx | hx
      · exact hx
      · exact ih j hx

theorem evalWith_symDeriv_of_not_mem (uf : UnaryFunc → ℚ → ℚ)
    (v : Nat → ℚ) : ∀ (e : Expr) (j : Nat), j ∉ e.vars →
    (e.symDeriv j).evalWith uf v = 0 := by
  intro e
  induction e with
  | const c => intro j _; simp [Expr.symDeriv, Expr.evalWith]
  | var i =>
      intro j h
      simp only [Expr.vars, Finset.mem_singleton] at h
      rw [Expr.symDeriv, if_neg (fun hij => h hij.symm)]
      rfl
  | add a b iha ihb =>
      intro j h
      simp only [Expr.vars, Finset.mem_union, not_or] at h
      simp [Expr.symDeriv, Expr.evalWith, iha j h.1, ihb j h.2]
  | sub a b iha ihb =>
      intro j h
      simp only [Expr.vars, Finset.mem_union, not_or] at h
      simp [Expr.symDeriv, Expr.evalWith, iha j h.1, ihb j h.2]
  | mul a b iha ihb =>
      intro j h
      simp only [Expr.vars, Finset.mem_union, not_or] at h
      simp [Expr.symDeriv, Expr.evalWith, iha j h.1, ihb j h.2]
  | div a b iha ihb =>
      intro j h
      simp only [Expr.vars, Finset.mem_union, not_or] at h
      simp [Expr.symDeriv, Expr.evalWith, iha j h.1, ihb j h.2]
  | unary f a ih =>
      intro j h
      simp only [Expr.vars] at h
      simp [Expr.symDeriv, Expr.evalWith, ih j h]

theorem evalWith_symDeriv2_of_not_mem (uf : UnaryFunc → ℚ → ℚ)
    (v : Nat → ℚ) : ∀ (e : Expr) (j k : Nat), j ∉ e.vars →
    ((e.symDeriv j).symDeriv k).evalWith uf v = 0 := by
  intro e
  induction e with
  | const c => intro j k _; simp [Expr.symDeriv, Expr.evalWith]
  | var i =>
      intro j k h
      simp only [Expr.vars, Finset.mem_singleton] at h
      rw [Expr.symDeriv, if_neg (fun hij => h hij.symm)]
      rfl
  | add a b iha ihb =>
      intro j k h
      simp only [Expr.vars, Finset.mem_union, not_or] at h
      simp [Expr.symDeriv, Expr.evalWith, iha j k h.1, ihb j k h.2]
  | sub a b iha ihb =>
      intro j k h
      simp only [Expr.vars, Finset.mem_union, not_or] at h
      simp [Expr.symDeriv, Expr.evalWith, iha j k h.1, ihb j k h.2]
  | mul a b iha ihb =>
      intro j k h
      simp only [Expr.vars, Finset.mem_union, not_or] at h
      simp [Expr.symDeriv, Expr.evalWith, iha j k h.1, ihb j k h.2,
        evalWith_symDeriv_of_not_mem uf v a j h.1,
        evalWith_symDeriv_of_not_mem uf v b j h.2]
  | div a b iha ihb =>
      intro j k h
      simp only [Expr.vars, Finset.mem_union, not_or] at h
      simp [Expr.symDeriv, Expr.evalWith, iha j k h.1, ihb j k h.2,
        evalWith_symDeriv_of_not_mem uf v a j h.1,
        evalWith_symDeriv_of_not_mem uf v b j h.2]
  | unary f a ih =>
      intro j k h
      simp only [Expr.vars] at h
      simp [Expr.symDeriv, Expr.evalWith, ih j k h,
        evalWith_symDeriv_of_not_mem uf v a j h]

theorem stateVarIdx_lt (n N i k : Nat) (hi : i < n) (hk : k < N + 1) :
    stateVarIdx n N i k < n * (N + 1) := by
  unfold stateVarIdx
  calc n * k + i < n * k + n := by omega
    _ = n * (k + 1) := by ring
    _ ≤ n * (N + 1) := Nat.mul_le_mul_left n (by omega)

theorem stateVarIdx_inj (n N : Nat) :
    ∀ p q : Fin n × Fin (N + 1),
      stateVarIdx n N p.1.1 p.2.1 = stateVarIdx n N q.1.1 q.2.1 → p = q := by
  rintro ⟨⟨i1, hi1⟩, ⟨k1, hk1⟩⟩ ⟨⟨i2, hi2⟩, ⟨k2, hk2⟩⟩ h
  have h2 : n * k1 + i1 = n * k2 + i2 := h
  have hn : 0 < n := by omega
  have hm1 : (n * k1 + i1) % n = i1 := by
    rw [Nat.mul_add_mod]; exact Nat.mod_eq_of_lt hi1
  have hm2 : (n * k2 + i2) % n = i2 := by
    rw [Nat.mul_add_mod]; exact Nat.mod_eq_of_lt hi2
  have hd1 : (n * k1 + i1) / n = k1 := by
    rw [Nat.mul_add_div hn, Nat.div_eq_of_lt hi1]
    rfl
  have hd2 : (n * k2 + i2) / n = k2 := by
    rw [Nat.mul_add_div hn, Nat.div_eq_of_lt hi2]
    rfl
  have hi : i1 = i2 := by rw [← hm1, ← hm2, h2]
  have hk : k1 = k2 := by rw [← hd1, ← hd2, h2]
  subst hi; subst hk; rfl

theorem inputVarIdx_inj (n m N : Nat) :
    ∀ p q : Fin m × Fin N,
      inputVarIdx n m N p.1.1 p.2.1 = inputVarIdx n m N q.1.1 q.2.1 →
        p = q := by
  rintro ⟨⟨i1, hi1⟩, ⟨k1, hk1⟩⟩ ⟨⟨i2, hi2⟩, ⟨k2, hk2⟩⟩ h
  have h1 : n * (N + 1) + (m * k1 + i1) = n * (N + 1) + (m * k2 + i2) := h
  have h2 : m * k1 + i1 = m * k2 + i2 := Nat.add_left_cancel h1
  have hm0 : 0 < m := by omega
  have hm1 : (m * k1 + i1) % m = i1 := by
    rw [Nat.mul_add_mod]; exact Nat.mod_eq_of_lt hi1
  have hm2 : (m * k2 + i2) % m = i2 := by
    rw [Nat.mul_add_mod]; exact Nat.mod_eq_of_lt hi2
  have hd1 : (m * k1 + i1) / m = k1 := by
    rw [Nat.mul_add_div hm0, Nat.div_eq_of_lt hi1]
    rfl
  have hd2 : (m * k2 + i2) / m = k2 := by
    rw [Nat.mul_add_div hm0, Nat.div_eq_of_lt hi2]
    rfl
  have hi : i1 = i2 := by rw [← hm1, ← hm2, h2]
  have hk : k1 = k2 := by rw [← hd1, ← hd2, h2]
  subst hi; subst hk; rfl

theorem stateVarIndices_card (n N : Nat) :
    (stateVarIndices n N).card = n * (N + 1) := by
  rw [stateVarIndices,
    Finset.card_image_of_injective _ (fun p q => stateVarIdx_inj n N p q),
    Finset.card_univ, Fintype.card_prod, Fintype.card_fin, Fintype.card_fin]

theorem inputVarIndices_card (n m N : Nat) :
    (inputVarIndices n m N).card = m * N := by
  rw [inputVarIndices,
    Finset.card_image_of_injective _ (fun p q => inputVarIdx_inj n m N p q),
    Finset.card_univ, Fintype.card_prod, Fintype.card_fin, Fintype.card_fin]

theorem stateInput_indices_disjoint (n m N : Nat) :
    Disjoint (stateVarIndices n N) (inputVarIndices n m N) := by
  rw [Finset.disjoint_left]
  intro a ha hb
  simp only [stateVarIndices, Finset.mem_image] at ha
  simp only [inputVarIndices, Finset.mem_image] at hb
  obtain ⟨p, _, hp⟩ := ha
  obtain ⟨q, _, hq⟩ := hb
  have h1 := stateVarIdx_lt n N p.1.1 p.2.1 p.1.2 p.2.2
  have h2 : n * (N + 1) ≤ inputVarIdx n m N q.1.1 q.2.1 :=
    Nat.le_add_right _ _
  have h3 : stateVarIdx n N p.1.1 p.2.1 = inputVarIdx n m N q.1.1 q.2.1 :=
    hp.trans hq.symm
  rw [h3] at h1
  exact absurd (lt_of_lt_of_le h1 h2) (lt_irrefl _)

theorem cartPoleCollocationConstraint_type (N k : Nat) :
    (cartPoleCollocationConstraint N k).exprType = .nonlinear := by
  norm_num [cartPoleCollocationConstraint, cartPoleQdd, cartPoleStateVar,
    cartPoleInputVar, dtVar, Expr.exprType, ExpressionType.sup,
    ExpressionType.mulKind, ExpressionType.divKind, ExpressionType.unaryKind,
    ExpressionType.rank]

theorem pinnedBoxNLP_solve_success :
    (NLP.solve idUnaryInterp idStep neverDiverges pinnedBoxNLP smallConfig
      zeroGuess).status.exitCondition = .success := by
  norm_num [NLP.solve, solveLoop, idUnaryInterp, idStep, neverDiverges,
    pinnedBoxNLP, smallConfig, zeroGuess, converged, eqFeasible,
    ineqFeasible, constrainInitialState, constrainFinalState,
    setLowerInputBound, setUpperInputBound, Expr.evalWith, stateVarIdx,
    inputVarIdx]

/-- C1: for every problem, Solve() returns a solve-status record whose
structural classifications of the cost, the equality-constraint set and
the inequality-constraint set are each the most general classification
present among that group's expressions (the rank-largest of
None/Constant/Linear/Quadratic/Nonlinear, attained by a member); in
particular a sum-of-squared-inputs cost is classified Quadratic, uniform
box input bounds are classified Linear, and equality constraints built
from the nonlinear cart-pole collocation dynamics are classified
Nonlinear. -/
theorem solve_status_classifications :
    (∀ (uf : UnaryFunc → ℚ → ℚ) (step : (Nat → ℚ) → Nat → ℚ)
        (bad : (Nat → ℚ) → Bool) (p : NLP) (cfg : SolverConfig)
        (v0 : Nat → ℚ),
        (NLP.solve uf step bad p cfg v0).status.costFunctionType =
            p.cost.exprType ∧
        (NLP.solve uf step bad p cfg v0).status.equalityConstraintType =
            maxTypeList p.eqConstraints ∧
        (NLP.solve uf step bad p cfg v0).status.inequalityConstraintType =
            maxTypeList p.ineqConstraints) ∧
    (∀ (l : List Expr) (e : Expr), e ∈ l →
        e.exprType.rank ≤ (maxTypeList l).rank) ∧
    (∀ l : List Expr,
        maxTypeList l = .none ∨ ∃ e ∈ l, maxTypeList l = e.exprType) ∧
    (∀ n m N : Nat, 1 ≤ m → 1 ≤ N →
        (sumSquaredInputs n m N).exprType = .quadratic) ∧
    (∀ (n m N : Nat) (lower upper : ℚ), 1 ≤ m → 1 ≤ N →
        maxTypeList (setLowerInputBound n m N lower ++
          setUpperInputBound n m N upper) = .linear) ∧
    (∀ N k : Nat,
        (cartPoleCollocationConstraint N k).exprType = .nonlinear) ∧
    (∀ (l : List Expr) (N k : Nat), cartPoleCollocationConstraint N k ∈ l →
        maxTypeList l = .nonlinear) :=
  ⟨fun _ _ _ _ _ _ => ⟨rfl, rfl, rfl⟩,
   fun l e he => maxTypeList_mem_le l e he,
   fun l => maxTypeList_attained l,
   fun n m N hm hN => sumSquaredInputs_type n m N hm hN,
   fun n m N lower upper hm hN =>
     inputBounds_group_linear n m N lower upper hm hN,
   fun N k => cartPoleCollocationConstraint_type N k,
   fun l N k hm =>
     maxTypeList_eq_nonlinear l _ hm (cartPoleCollocationConstraint_type N k)⟩

/-- Witness for C1 at the cart-pole instance (n = 4, m = 1, N = 100):
the test's cost is Quadratic, its input-bound group is Linear, and an
equality-constraint group containing a cart-pole collocation constraint is
Nonlinear. -/
theorem solve_status_classifications_witness :
    (sumSquaredInputs 4 1 100).exprType = .quadratic ∧
    maxTypeList (setLowerInputBound 4 1 100 (-20) ++
      setUpperInputBound 4 1 100 20) = .linear ∧
    maxTypeList [cartPoleCollocationConstraint 100 0] = .nonlinear :=
  ⟨solve_status_classifications.2.2.2.1 4 1 100 (by decide) (by decide),
   solve_status_classifications.2.2.2.2.1 4 1 100 (-20) 20 (by decide)
     (by decide),
   solve_status_classifications.2.2.2.2.2.2 [cartPoleCollocationConstraint
     100 0] 100 0 (List.mem_singleton.mpr rfl)⟩

/-- C2: after any valid trace of pool operations in which every allocated
block has been deallocated (all owning objects destroyed), the pool's
blocks_in_use() query returns exactly 0, for traces of every size; the
live count is exact throughout (outstanding = allocations −
deallocations). -/
theorem pool_balance (t : List PoolOp)
    (hv : validFrom emptyPool t = true) :
    (runPool emptyPool t).blocks_in_use + deallocCount t = allocCount t ∧
    (allocCount t = deallocCount t →
      (runPool emptyPool t).blocks_in_use = 0) := by
  have h := runPool_blocks_in_use t emptyPool hv
  have h0 : emptyPool.blocks_in_use = 0 := rfl
  constructor
  · omega
  · intro hb; omega

/-- Witness for C2: a concrete trace of two allocations matched by two
deallocations ends with zero outstanding blocks. -/
theorem pool_balance_witness :
    (runPool emptyPool
      [PoolOp.alloc, PoolOp.alloc, PoolOp.dealloc 1,
        PoolOp.dealloc 0]).blocks_in_use = 0 :=
  (pool_balance
      [PoolOp.alloc, PoolOp.alloc, PoolOp.dealloc 1, PoolOp.dealloc 0]
      (by decide)).2 (by decide)

/-- C3: for every OCP whose equality constraints contain the
ConstrainInitialState(x0) and ConstrainFinalState(xf) pinning constraints
and whose Solve() exits with Success, the first stage (column 0) of the
converged state trajectory equals x0 and the last stage (column N) equals
xf, each within solver tolerance. -/
theorem boundary_pinning (n N : Nat) (x0v xfv : Nat → ℚ)
    (uf : UnaryFunc → ℚ → ℚ) (step : (Nat → ℚ) → Nat → ℚ)
    (bad : (Nat → ℚ) → Bool) (p : NLP) (cfg : SolverConfig) (v0 : Nat → ℚ)
    (hini : ∀ c ∈ constrainInitialState n N x0v, c ∈ p.eqConstraints)
    (hfin : ∀ c ∈ constrainFinalState n N xfv, c ∈ p.eqConstraints)
    (hs : (NLP.solve uf step bad p cfg v0).status.exitCondition =
      .success) :
    ∀ i < n,
      |(NLP.solve uf step bad p cfg v0).iterate (stateVarIdx n N i 0) -
          x0v i| ≤ cfg.tolerance ∧
      |(NLP.solve uf step bad p cfg v0).iterate (stateVarIdx n N i N) -
          xfv i| ≤ cfg.tolerance := by
  intro i hi
  have h := solve_success_eq_residuals uf step bad p cfg v0 hs
  constructor
  · have hc := h _ (hini _ (mem_constrainInitialState n N x0v i hi))
    simpa [Expr.evalWith] using hc
  · have hc := h _ (hfin _ (mem_constrainFinalState n N xfv i hi))
    simpa [Expr.evalWith] using hc

/-- Witness for C3: the concrete pinned 1-state problem solves with
Success and its converged state equals the pinned values at stages 0
and N within tolerance. -/
theorem boundary_pinning_witness :
    |(NLP.solve idUnaryInterp idStep neverDiverges pinnedBoxNLP smallConfig
        zeroGuess).iterate (stateVarIdx 1 1 0 0) - 0| ≤
      smallConfig.tolerance ∧
    |(NLP.solve idUnaryInterp idStep neverDiverges pinnedBoxNLP smallConfig
        zeroGuess).iterate (stateVarIdx 1 1 0 1) - 0| ≤
      smallConfig.tolerance :=
  boundary_pinning 1 1 (fun _ => 0) (fun _ => 0) idUnaryInterp idStep
    neverDiverges pinnedBoxNLP smallConfig zeroGuess
    (fun c hc => List.mem_append_left _ hc)
    (fun c hc => List.mem_append_right _ hc)
    pinnedBoxNLP_solve_success 0 (by decide)

/-- C4: Solve() is a total function that always returns a status record
with an enumerated exit condition — the returned trajectory is a
well-defined iterate of the step sequence (the iterate at termination,
reached within the iteration budget), readable by the caller on every
exit; and a Success exit certifies the convergence check at that
iterate. -/
theorem solve_returns_status (uf : UnaryFunc → ℚ → ℚ)
    (step : (Nat → ℚ) → Nat → ℚ) (bad : (Nat → ℚ) → Bool) (p : NLP)
    (cfg : SolverConfig) (v0 : Nat → ℚ) :
    (∃ k ≤ cfg.maxIterations,
        (NLP.solve uf step bad p cfg v0).iterate = step^[k] v0) ∧
    ((NLP.solve uf step bad p cfg v0).status.exitCondition = .success →
      converged uf cfg.tolerance p
        ((NLP.solve uf step bad p cfg v0).iterate) = true) := by
  obtain ⟨k, hk, h1, h2⟩ := solveLoop_spec uf step bad p cfg.tolerance
    cfg.diagnostics cfg.maxIterations v0 []
  exact ⟨⟨k, hk, h1⟩, h2⟩

/-- Witness for C4: on the concrete pinned problem the Success exit is
reached and the convergence check holds at the returned iterate. -/
theorem solve_returns_status_witness :
    converged idUnaryInterp smallConfig.tolerance pinnedBoxNLP
      ((NLP.solve idUnaryInterp idStep neverDiverges pinnedBoxNLP
        smallConfig zeroGuess).iterate) = true :=
  (solve_returns_status idUnaryInterp idStep neverDiverges pinnedBoxNLP
    smallConfig zeroGuess).2 pinnedBoxNLP_solve_success

/-- C5: for every OCP whose inequality constraints contain the uniform
whole-trajectory input bounds SetLowerInputBound(lower) and
SetUpperInputBound(upper) and whose Solve() exits with Success, the
converged input value at every stage k < N and every input row i < m lies
within [lower, upper]. -/
theorem input_bound_respect (n m N : Nat) (lower upper : ℚ)
    (uf : UnaryFunc → ℚ → ℚ) (step : (Nat → ℚ) → Nat → ℚ)
    (bad : (Nat → ℚ) → Bool) (p : NLP) (cfg : SolverConfig) (v0 : Nat → ℚ)
    (hlo : ∀ c ∈ setLowerInputBound n m N lower, c ∈ p.ineqConstraints)
    (hhi : ∀ c ∈ setUpperInputBound n m N upper, c ∈ p.ineqConstraints)
    (hs : (NLP.solve uf step bad p cfg v0).status.exitCondition =
      .success) :
    ∀ i < m, ∀ k < N,
      lower ≤ (NLP.solve uf step bad p cfg v0).iterate
          (inputVarIdx n m N i k) ∧
      (NLP.solve uf step bad p cfg v0).iterate (inputVarIdx n m N i k) ≤
        upper := by
  intro i hi k hk
  have h := solve_success_ineq_feasible uf step bad p cfg v0 hs
  constructor
  · have hc := h _ (hlo _ (mem_setLowerInputBound n m N lower i k hi hk))
    simp only [Expr.evalWith] at hc
    linarith
  · have hc := h _ (hhi _ (mem_setUpperInputBound n m N upper i k hi hk))
    simp only [Expr.evalWith] at hc
    linarith

/-- Witness for C5: on the concrete pinned problem with input bounds
[-1, 1], the converged input at stage 0 lies within the bounds. -/
theorem input_bound_respect_witness :
    (-1 : ℚ) ≤ (NLP.solve idUnaryInterp idStep neverDiverges pinnedBoxNLP
        smallConfig zeroGuess).iterate (inputVarIdx 1 1 1 0 0) ∧
    (NLP.solve idUnaryInterp idStep neverDiverges pinnedBoxNLP smallConfig
        zeroGuess).iterate (inputVarIdx 1 1 1 0 0) ≤ 1 :=
  input_bound_respect 1 1 1 (-1) 1 idUnaryInterp idStep neverDiverges
    pinnedBoxNLP smallConfig zeroGuess
    (fun c hc => List.mem_append_left _ hc)
    (fun c hc => List.mem_append_right _ hc)
    pinnedBoxNLP_solve_success 0 (by decide) 0 (by decide)

/-- C6: for every OCPSolver with state dimension n, input dimension m and
horizon N, the state trajectory X() is an n × (N+1) matrix of decision
variables and the input trajectory U() is an m × N matrix of decision
variables (no input decision variable at stage N): every entry is a
distinct decision-variable leaf, the state block contributes n·(N+1)
distinct column indices, the input block contributes m·N, and the two
blocks are disjoint. -/
theorem ocp_trajectory_dims (n m N : Nat) :
    (∀ (i : Fin n) (k : Fin (N + 1)),
        ocpX n m N i k = Expr.var (stateVarIdx n N i.1 k.1)) ∧
    (∀ (i : Fin m) (k : Fin N),
        ocpU n m N i k = Expr.var (inputVarIdx n m N i.1 k.1)) ∧
    (stateVarIndices n N).card = n * (N + 1) ∧
    (inputVarIndices n m N).card = m * N ∧
    Disjoint (stateVarIndices n N) (inputVarIndices n m N) :=
  ⟨fun _ _ => rfl, fun _ _ => rfl, stateVarIndices_card n N,
    inputVarIndices_card n m N, stateInput_indices_disjoint n m N⟩

/-- Witness for C6 at the cart-pole dimensions (n = 4, m = 1, N = 100):
the state block has 4·101 distinct decision variables and the input block
has 1·100. -/
theorem ocp_trajectory_dims_witness :
    (stateVarIndices 4 100).card = 4 * 101 ∧
    (inputVarIndices 4 1 100).card = 1 * 100 :=
  ⟨(ocp_trajectory_dims 4 1 100).2.2.1, (ocp_trajectory_dims 4 1 100).2.2.2.1⟩

/-- C7: for every problem and configuration, Solve() with diagnostics
enabled and Solve() with diagnostics disabled produce the same status
record (exit condition and classifications) and the same converged
trajectory values; the diagnostics flag changes reporting only. -/
theorem diagnostics_no_numerical_effect (uf : UnaryFunc → ℚ → ℚ)
    (step : (Nat → ℚ) → Nat → ℚ) (bad : (Nat → ℚ) → Bool) (p : NLP)
    (cfg : SolverConfig) (v0 : Nat → ℚ) :
    (NLP.solve uf step bad p { cfg with diagnostics := true } v0).status =
      (NLP.solve uf step bad p { cfg with diagnostics := false }
        v0).status ∧
    ∀ j, (NLP.solve uf step bad p { cfg with diagnostics := true }
        v0).iterate j =
      (NLP.solve uf step bad p { cfg with diagnostics := false }
        v0).iterate j := by
  obtain ⟨h1, h2⟩ := solveLoop_diag_indep uf step bad p cfg.tolerance
    cfg.maxIterations v0 [] [] true false
  constructor
  · simp only [NLP.solve]
    rw [h1]
  · intro j
    simp only [NLP.solve]
    rw [h2]

/-- C8: the structurally-nonzero Jacobian and Hessian positions are
computed once from graph structure (the sparsity predicates depend only on
the expressions, not on any iterate), and at every iteration the numeric
entries can be nonzero only at positions of that setup-time pattern — no
new nonzero position ever appears after setup. -/
theorem sparsity_stability (cs : List Expr) (lagrangian : Expr)
    (uf : UnaryFunc → ℚ → ℚ) (v : Nat → ℚ) (i j k : Nat) :
    (jacEntry uf v cs i j ≠ 0 → jacSparsity cs i j) ∧
    (hessEntry uf v lagrangian j k ≠ 0 → hessSparsity lagrangian j k) := by
  constructor
  · intro hne
    by_contra hmem
    exact hne (evalWith_symDeriv_of_not_mem uf v _ j hmem)
  · intro hne
    refine ⟨?_, ?_⟩
    · by_contra hj
      exact hne (evalWith_symDeriv2_of_not_mem uf v lagrangian j k hj)
    · by_contra hk
      exact hne (evalWith_symDeriv_of_not_mem uf v _ k
        (fun hmem => hk (vars_symDeriv_subset lagrangian j hmem)))

/-- Witness for C8: at a concrete iterate the Jacobian and Hessian entries
of the expression x₀·x₀ are nonzero at position (0, 0), which therefore
lies in the structural sparsity pattern. -/
theorem sparsity_stability_witness :
    jacSparsity [Expr.mul (Expr.var 0) (Expr.var 0)] 0 0 ∧
    hessSparsity (Expr.mul (Expr.var 0) (Expr.var 0)) 0 0 :=
  ⟨(sparsity_stability [Expr.mul (Expr.var 0) (Expr.var 0)]
      (Expr.mul (Expr.var 0) (Expr.var 0)) idUnaryInterp (fun _ => 1)
      0 0 0).1
    (by norm_num [jacEntry, Expr.symDeriv, Expr.evalWith, List.getD]),
   (sparsity_stability [Expr.mul (Expr.var 0) (Expr.var 0)]
      (Expr.mul (Expr.var 0) (Expr.var 0)) idUnaryInterp (fun _ => 1)
      0 0 0).2
    (by norm_num [hessEntry, Expr.symDeriv, Expr.evalWith])⟩

end Theorems

end Sleipnir
